import Mathlib

/-!
Verification of the public surface of picotls (`include/picotls.h`).

The development shallowly embeds the declarations of the header into Lean.
Machine integers are modelled as `Nat` with explicit bounds (`2^32` for the
C `int` error codes, `2^64` for the record sequence number); pointers are
modelled as `Nat` addresses with `0` playing the role of `NULL`.  Functions
that are declared in the header but whose definitions are not part of the
exposed sources are modelled from the specification and carry a doc comment
saying so.
-/

namespace Picotls

/-! ### Error classes and macros (`picotls.h` lines 47-79) -/

def PTLS_ERROR_CLASS_SELF_ALERT : Nat := 0

def PTLS_ERROR_CLASS_PEER_ALERT : Nat := 0x100

def PTLS_ERROR_CLASS_INTERNAL : Nat := 0x200

/-- `#define PTLS_ERROR_GET_CLASS(e) ((e) & ~0xff)`; on the 32-bit `int`
used for error codes the complement mask `~0xff` is `0xffffff00`. -/
def PTLS_ERROR_GET_CLASS (e : Nat) : Nat := e &&& 0xffffff00

/-- `#define PTLS_ALERT_TO_SELF_ERROR(e) ((e) + PTLS_ERROR_CLASS_SELF_ALERT)` -/
def PTLS_ALERT_TO_SELF_ERROR (e : Nat) : Nat := e + PTLS_ERROR_CLASS_SELF_ALERT

/-- `#define PTLS_ALERT_TO_PEER_ERROR(e) ((e) + PTLS_ERROR_CLASS_PEER_ALERT)` -/
def PTLS_ALERT_TO_PEER_ERROR (e : Nat) : Nat := e + PTLS_ERROR_CLASS_PEER_ALERT

/-- `#define PTLS_ERROR_TO_ALERT(e) ((e)&0xff)` -/
def PTLS_ERROR_TO_ALERT (e : Nat) : Nat := e &&& 0xff

def PTLS_ALERT_UNEXPECTED_MESSAGE : Nat := 10

def PTLS_ALERT_BAD_RECORD_MAC : Nat := 20

def PTLS_ERROR_NO_MEMORY : Nat := PTLS_ERROR_CLASS_INTERNAL + 1

def PTLS_ERROR_HANDSHAKE_IN_PROGRESS : Nat := PTLS_ERROR_CLASS_INTERNAL + 2

def PTLS_ERROR_LIBRARY : Nat := PTLS_ERROR_CLASS_INTERNAL + 3

def PTLS_ERROR_INCOMPATIBLE_KEY : Nat := PTLS_ERROR_CLASS_INTERNAL + 4

/-! #### Bit-level helpers for the error macros -/

theorem land_255_eq_mod (e : Nat) : e &&& 255 = e % 256 := by
  have h : (255 : Nat) = 2 ^ 8 - 1 := by norm_num
  rw [h, Nat.and_pow_two_sub_one_eq_mod, show (2 : Nat) ^ 8 = 256 by norm_num]

theorem mask_testBit_low : ∀ j < 8, Nat.testBit 0xffffff00 j = false := by decide

theorem testBit_of_lt_256 (a i : Nat) (ha : a < 256) (hi : 8 ≤ i) :
    Nat.testBit a i = false := by
  apply Nat.testBit_lt_two_pow
  calc a < 256 := ha
    _ = 2 ^ 8 := by norm_num
    _ ≤ 2 ^ i := Nat.pow_le_pow_right (by norm_num) hi

theorem getClass_of_lt_256 (a : Nat) (ha : a < 256) : a &&& 0xffffff00 = 0 := by
  apply Nat.eq_of_testBit_eq
  intro i
  simp only [Nat.testBit_and, Nat.zero_testBit]
  by_cases h : i < 8
  · rw [mask_testBit_low i h, Bool.and_false]
  · rw [testBit_of_lt_256 a i ha (Nat.le_of_not_lt h), Bool.false_and]

theorem getClass_add_256 (a : Nat) (ha : a < 256) : (a + 256) &&& 0xffffff00 = 256 := by
  apply Nat.eq_of_testBit_eq
  intro i
  simp only [Nat.testBit_and]
  have hcomm : a + 256 = 2 ^ 8 + a := by norm_num [Nat.add_comm]
  rcases Nat.lt_trichotomy i 8 with h | h | h
  · rw [hcomm, Nat.testBit_two_pow_add_gt h, mask_testBit_low i h, Bool.and_false]
    have : Nat.testBit 256 i = false := by
      have h256 : ∀ j < 8, Nat.testBit 256 j = false := by decide
      exact h256 i h
    rw [this]
  · subst h
    rw [hcomm, Nat.testBit_two_pow_add_eq,
      testBit_of_lt_256 a 8 ha (le_refl 8)]
    decide
  · have h1 : Nat.testBit (a + 256) i = false := by
      apply Nat.testBit_lt_two_pow
      calc a + 256 < 512 := by omega
        _ = 2 ^ 9 := by norm_num
        _ ≤ 2 ^ i := Nat.pow_le_pow_right (by norm_num) h
    have h2 : Nat.testBit 256 i = false := by
      apply Nat.testBit_lt_two_pow
      calc (256 : Nat) < 2 ^ 9 := by norm_num
        _ ≤ 2 ^ i := Nat.pow_le_pow_right (by norm_num) h
    rw [h1, h2, Bool.false_and]

/-- C5: error codes encode their class in the upper bits (self-alert `0x0000`,
peer-alert `0x0100`, internal `0x0200`); for every alert code `a < 256` the
low byte of the alert-class error built from `a` is `a` again
(`PTLS_ERROR_TO_ALERT` inverts `PTLS_ALERT_TO_SELF_ERROR` and
`PTLS_ALERT_TO_PEER_ERROR`), and the four internal errors have the values
`0x201`, `0x202`, `0x203`, `0x204` and class `0x200`. -/
theorem error_encoding (a : Nat) (ha : a < 256) :
    PTLS_ERROR_TO_ALERT (PTLS_ALERT_TO_SELF_ERROR a) = a ∧
    PTLS_ERROR_TO_ALERT (PTLS_ALERT_TO_PEER_ERROR a) = a ∧
    PTLS_ERROR_GET_CLASS (PTLS_ALERT_TO_SELF_ERROR a) = PTLS_ERROR_CLASS_SELF_ALERT ∧
    PTLS_ERROR_GET_CLASS (PTLS_ALERT_TO_PEER_ERROR a) = PTLS_ERROR_CLASS_PEER_ALERT ∧
    PTLS_ERROR_NO_MEMORY = 0x201 ∧
    PTLS_ERROR_HANDSHAKE_IN_PROGRESS = 0x202 ∧
    PTLS_ERROR_LIBRARY = 0x203 ∧
    PTLS_ERROR_INCOMPATIBLE_KEY = 0x204 ∧
    PTLS_ERROR_GET_CLASS PTLS_ERROR_NO_MEMORY = PTLS_ERROR_CLASS_INTERNAL ∧
    PTLS_ERROR_GET_CLASS PTLS_ERROR_HANDSHAKE_IN_PROGRESS = PTLS_ERROR_CLASS_INTERNAL ∧
    PTLS_ERROR_GET_CLASS PTLS_ERROR_LIBRARY = PTLS_ERROR_CLASS_INTERNAL ∧
    PTLS_ERROR_GET_CLASS PTLS_ERROR_INCOMPATIBLE_KEY = PTLS_ERROR_CLASS_INTERNAL := by
  refine ⟨?_, ?_, ?_, ?_, by decide, by decide, by decide, by decide,
    by decide, by decide, by decide, by decide⟩
  · show (a + 0) &&& 255 = a
    rw [Nat.add_zero, land_255_eq_mod, Nat.mod_eq_of_lt ha]
  · show (a + 0x100) &&& 255 = a
    rw [land_255_eq_mod]
    omega
  · exact getClass_of_lt_256 (a + 0) (by omega)
  · exact getClass_add_256 a ha

/-- Witness for `error_encoding` at the concrete alert code 20
(`bad_record_mac`). -/
theorem error_encoding_witness :
    PTLS_ERROR_TO_ALERT (PTLS_ALERT_TO_PEER_ERROR 20) = 20 :=
  (error_encoding 20 (by decide)).2.1

/-! ### Buffers (`picotls.h` lines 94-99, 214-226, 298-311) -/

/-- `ptls_buffer_t` (header lines 94-99).  The pointer field `base` is a
`Nat` address; the C `int` flag `is_allocated` keeps its numeric value. -/
structure ptls_buffer_t where
  base : Nat
  capacity : Nat
  off : Nat
  is_allocated : Nat
deriving DecidableEq

/-- `ptls_buffer_init` (header lines 298-305).  The C function asserts
`smallbuf != NULL` and then sets `base = smallbuf`, `off = 0`,
`capacity = smallbuf_size`, `is_allocated = 0`; the assertion is modelled
by returning `none` on the null address. -/
def ptls_buffer_init (smallbuf : Nat) (smallbuf_size : Nat) : Option ptls_buffer_t :=
  if smallbuf = 0 then none
  else some { base := smallbuf, off := 0, capacity := smallbuf_size, is_allocated := 0 }

/-- Modelled from the spec: `ptls_buffer__release_memory` is declared at
header line 222 but its definition is not part of the exposed sources.  The
spec (§3 Buffer) says disposal "releases heap memory if promoted".  The heap
is modelled as the list of live heap-allocation addresses; releasing removes
the buffer's base address exactly when the buffer was promoted
(`is_allocated ≠ 0`). -/
def ptls_buffer__release_memory (buf : ptls_buffer_t) (heap : List Nat) : List Nat :=
  if buf.is_allocated ≠ 0 then heap.erase buf.base else heap

/-- `ptls_buffer_dispose` (header lines 307-311): releases memory, then
zeroes the whole structure (`*buf = (ptls_buffer_t){NULL}`). -/
def ptls_buffer_dispose (buf : ptls_buffer_t) (heap : List Nat) :
    ptls_buffer_t × List Nat :=
  (⟨0, 0, 0, 0⟩, ptls_buffer__release_memory buf heap)

/-- C9: `ptls_buffer_init` rejects a `NULL` backing area, and for every
non-null `smallbuf` it establishes the buffer invariant: `off = 0`,
`capacity = smallbuf_size` (hence `off ≤ capacity`) and `is_allocated = 0`. -/
theorem buffer_init_invariant (smallbuf smallbuf_size : Nat) (hnn : smallbuf ≠ 0) :
    ptls_buffer_init 0 smallbuf_size = none ∧
    ∃ b, ptls_buffer_init smallbuf smallbuf_size = some b ∧
      b.off = 0 ∧ b.capacity = smallbuf_size ∧ b.off ≤ b.capacity ∧
      b.is_allocated = 0 ∧ b.base = smallbuf := by
  refine ⟨by simp [ptls_buffer_init],
    ⟨⟨smallbuf, smallbuf_size, 0, 0⟩, ?_, rfl, rfl, Nat.zero_le _, rfl, rfl⟩⟩
  simp [ptls_buffer_init, hnn]

/-- Witness for `buffer_init_invariant` at `smallbuf = 1`, size 4. -/
theorem buffer_init_invariant_witness :
    ptls_buffer_init 0 4 = none ∧
    ∃ b, ptls_buffer_init 1 4 = some b ∧
      b.off = 0 ∧ b.capacity = 4 ∧ b.off ≤ b.capacity ∧
      b.is_allocated = 0 ∧ b.base = 1 :=
  buffer_init_invariant 1 4 (by decide)

/-- C8: `ptls_buffer_dispose` resets all four fields to the neutral
zero/NULL state, releases heap memory exactly when the buffer was promoted,
is a heap no-op on a freshly initialized buffer, and disposing twice is the
same as disposing once. -/
theorem buffer_dispose_idempotent (buf : ptls_buffer_t) (heap : List Nat) :
    (ptls_buffer_dispose buf heap).1 = ⟨0, 0, 0, 0⟩ ∧
    (buf.is_allocated = 0 → (ptls_buffer_dispose buf heap).2 = heap) ∧
    (buf.is_allocated ≠ 0 →
      (ptls_buffer_dispose buf heap).2 = heap.erase buf.base) ∧
    (∀ smallbuf sz b, ptls_buffer_init smallbuf sz = some b →
      (ptls_buffer_dispose b heap).2 = heap) ∧
    (ptls_buffer_dispose (ptls_buffer_dispose buf heap).1
        (ptls_buffer_dispose buf heap).2 =
      ptls_buffer_dispose buf heap) := by
  refine ⟨rfl, ?_, ?_, ?_, ?_⟩
  · intro h
    simp [ptls_buffer_dispose, ptls_buffer__release_memory, h]
  · intro h
    simp [ptls_buffer_dispose, ptls_buffer__release_memory, h]
  · intro smallbuf sz b hb
    unfold ptls_buffer_init at hb
    by_cases h0 : smallbuf = 0
    · simp [h0] at hb
    · simp [h0] at hb
      simp [ptls_buffer_dispose, ptls_buffer__release_memory, ← hb]
  · simp [ptls_buffer_dispose, ptls_buffer__release_memory]

/-- Witness for `buffer_dispose_idempotent`: a promoted buffer at address 7
on a heap holding 7; the second dispose changes nothing. -/
theorem buffer_dispose_idempotent_witness :
    (ptls_buffer_dispose ⟨7, 8, 3, 1⟩ [7]).2 = [] ∧
    (ptls_buffer_dispose (ptls_buffer_dispose ⟨7, 8, 3, 1⟩ [7]).1
        (ptls_buffer_dispose ⟨7, 8, 3, 1⟩ [7]).2 =
      ptls_buffer_dispose ⟨7, 8, 3, 1⟩ [7]) :=
  ⟨by simpa using (buffer_dispose_idempotent ⟨7, 8, 3, 1⟩ [7]).2.2.1 (by decide),
    (buffer_dispose_idempotent ⟨7, 8, 3, 1⟩ [7]).2.2.2.2⟩

/-! ### Hash algorithms, HMAC and HKDF -/

/-- `ptls_hash_algorithm_t` (header lines 183-187).  The streaming
`create`/`update`/`final` interface is collapsed to the pure function
`hashfn` on complete messages. -/
structure ptls_hash_algorithm_t where
  block_size : Nat
  digest_size : Nat
  hashfn : List Nat → List Nat

/-- Modelled from the spec: `ptls_hmac_create` (header line 259) collapsed
to a pure function.  "HMAC is constructed from the underlying hash with
block_size from the hash descriptor" (spec §4.4), following RFC 2104: a key
longer than the block is hashed first, then zero-padded to the block size
and combined with the opad/ipad constants. -/
def ptls_hmac (algo : ptls_hash_algorithm_t) (key msg : List Nat) : List Nat :=
  let k0 := if algo.block_size < key.length then algo.hashfn key else key
  let kpad := k0 ++ List.replicate (algo.block_size - k0.length) 0
  algo.hashfn ((kpad.map fun b => b ^^^ 0x5c) ++
    algo.hashfn ((kpad.map fun b => b ^^^ 0x36) ++ msg))

/-- Modelled from the spec: `ptls_hkdf_extract` (declared at header line
263, definition not in the exposed sources) is HKDF-Extract of RFC 5869,
that is `HMAC(salt, ikm)`. -/
def ptls_hkdf_extract (algo : ptls_hash_algorithm_t) (salt ikm : List Nat) : List Nat :=
  ptls_hmac algo salt ikm

/-- Modelled from the spec: block `T(i)` of HKDF-Expand (RFC 5869):
`T(0)` is empty and `T(i+1) = HMAC(prk, T(i) + info + octet(i+1))`. -/
def hkdfExpandBlock (algo : ptls_hash_algorithm_t) (prk info : List Nat) : Nat → List Nat
  | 0 => []
  | i + 1 => ptls_hmac algo prk (hkdfExpandBlock algo prk info i ++ info ++ [(i + 1) % 256])

/-- Modelled from the spec: `ptls_hkdf_expand` (declared at header line
267), RFC 5869 HKDF-Expand: the concatenation of the blocks `T(1), T(2), …`
truncated to `outlen` bytes. -/
def ptls_hkdf_expand (algo : ptls_hash_algorithm_t) (outlen : Nat) (prk info : List Nat) :
    List Nat :=
  (((List.range ((outlen + algo.digest_size - 1) / algo.digest_size)).map
    fun i => hkdfExpandBlock algo prk info (i + 1)).flatten).take outlen

/-- The ASCII bytes of "tls13 ". -/
def tls13LabelBytes : List Nat := [0x74, 0x6c, 0x73, 0x31, 0x33, 0x20]

/-- The ASCII bytes of "key". -/
def keyLabelBytes : List Nat := [0x6b, 0x65, 0x79]

/-- The ASCII bytes of "iv". -/
def ivLabelBytes : List Nat := [0x69, 0x76]

/-- Modelled from the spec: TLS 1.3 `HKDF-Expand-Label` (spec §4.4): the
`HkdfLabel` info structure is a 2-byte big-endian output length, the
"tls13 "-prefixed label with a 1-byte length, and the hash value with a
1-byte length. -/
def hkdf_expand_label (algo : ptls_hash_algorithm_t) (secret label hashValue : List Nat)
    (outlen : Nat) : List Nat :=
  let fullLabel := tls13LabelBytes ++ label
  let info := [outlen / 256 % 256, outlen % 256, fullLabel.length % 256] ++ fullLabel ++
    [hashValue.length % 256] ++ hashValue
  ptls_hkdf_expand algo outlen secret info

/-- C6: for every hash algorithm whose digests have length `digest_size`,
and for every salt and input key material, the output of
`ptls_hkdf_extract` has length exactly `digest_size`. -/
theorem hkdf_extract_length (algo : ptls_hash_algorithm_t)
    (hlen : ∀ m, (algo.hashfn m).length = algo.digest_size)
    (salt ikm : List Nat) :
    (ptls_hkdf_extract algo salt ikm).length = algo.digest_size := by
  unfold ptls_hkdf_extract ptls_hmac
  exact hlen _

/-- A toy hash algorithm producing two-byte digests, used as a concrete
witness input. -/
def toyHash : ptls_hash_algorithm_t :=
  { block_size := 4
    digest_size := 2
    hashfn := fun m => [m.length % 256, m.foldl (fun a b => a + b) 0 % 256] }

/-- Witness for `hkdf_extract_length` at the toy hash and concrete salt and
input key material. -/
theorem hkdf_extract_length_witness :
    (ptls_hkdf_extract toyHash [1, 2] [3, 4, 5]).length = toyHash.digest_size :=
  hkdf_extract_length toyHash (fun _ => rfl) [1, 2] [3, 4, 5]

/-! ### AEAD contexts (`picotls.h` lines 155-170, 271-281) -/

/-- `2^64`, one past the largest 64-bit sequence number. -/
def U64 : Nat := 2 ^ 64

/-- Data part of `ptls_aead_algorithm_t` (header lines 166-170). -/
structure ptls_aead_algorithm_t where
  key_size : Nat
  iv_size : Nat
deriving DecidableEq

/-- The pluggable crypto binding behind an AEAD context: the function
pointers `setup_crypto` (header line 169), `do_transform` and
`dispose_crypto` (header lines 157-159).  Per the header comment at line
160 the remaining fields "must not be altered by the crypto binding", so
the binding operates on the opaque `crypto_ctx` state `C` only. -/
structure AeadBinding (C : Type) where
  setup_crypto : Bool → List Nat → Option C
  do_transform : C → List Nat → List Nat → Nat → Option (List Nat × C)
  dispose_crypto : C → C

/-- `ptls_aead_context_t` (header lines 155-164): the opaque binding state,
the algorithm descriptor, the 64-bit sequence number and the trailing
static IV array. -/
structure ptls_aead_context_t (C : Type) where
  crypto_ctx : C
  algo : ptls_aead_algorithm_t
  seq : Nat
  static_iv : List Nat

/-- Big-endian 8-byte encoding of a 64-bit sequence number. -/
def beBytes8 (n : Nat) : List Nat :=
  [n / 2 ^ 56 % 256, n / 2 ^ 48 % 256, n / 2 ^ 40 % 256, n / 2 ^ 32 % 256,
   n / 2 ^ 24 % 256, n / 2 ^ 16 % 256, n / 2 ^ 8 % 256, n % 256]

/-- Modelled from the spec (§4.5 Nonce construction): the per-record nonce
is the static IV XORed with the sequence number encoded big-endian into the
rightmost 8 bytes, left-padded with zeros. -/
def aead_nonce (iv : List Nat) (seq : Nat) : List Nat :=
  List.zipWith (fun a b => a ^^^ b) iv (List.replicate (iv.length - 8) 0 ++ beBytes8 seq)

/-- Modelled from the spec: `ptls_aead_new` (declared at header lines
271-272) "constructs an AEAD context by deriving key and IV via
HKDF-Expand-Label from `secret` with the given label" (spec §6, §4.4); a
newly installed key starts with sequence number zero (spec §4.5). -/
def ptls_aead_new {C : Type} (B : AeadBinding C) (aead : ptls_aead_algorithm_t)
    (hash : ptls_hash_algorithm_t) (is_enc : Bool) (secret label : List Nat) :
    Option (ptls_aead_context_t C) :=
  match B.setup_crypto is_enc
      (hkdf_expand_label hash secret (label ++ keyLabelBytes) [] aead.key_size) with
  | none => none
  | some c =>
    some
      { crypto_ctx := c, algo := aead, seq := 0,
        static_iv := hkdf_expand_label hash secret (label ++ ivLabelBytes) [] aead.iv_size }

/-- Modelled from the spec: `ptls_aead_transform` (declared at header lines
280-281).  The core builds the per-record nonce from `static_iv` and `seq`,
invokes the binding's `do_transform`, and on success increments the
sequence number by one; the sequence number "must never wrap for a given
key (if it would, the session fails)" (spec §3), so a transform that would
take it past `2^64 - 1` fails instead. -/
def ptls_aead_transform {C : Type} (B : AeadBinding C) (ctx : ptls_aead_context_t C)
    (input : List Nat) (enc_content_type : Nat) :
    Option (List Nat × ptls_aead_context_t C) :=
  if U64 ≤ ctx.seq + 1 then none
  else
    match B.do_transform ctx.crypto_ctx input (aead_nonce ctx.static_iv ctx.seq)
        enc_content_type with
    | none => none
    | some (out, c) =>
      some (out, { ctx with crypto_ctx := c, seq := ctx.seq + 1 })

/-- `ptls_aead_free` (header line 276), observed just before deallocation:
the binding's `dispose_crypto` runs on the opaque state only. -/
def ptls_aead_free {C : Type} (B : AeadBinding C) (ctx : ptls_aead_context_t C) :
    ptls_aead_context_t C :=
  { ctx with crypto_ctx := B.dispose_crypto ctx.crypto_ctx }

/-- C1: the sequence number of an AEAD context is zero on key install
(`ptls_aead_new`), increments by exactly one per successful
`ptls_aead_transform` (hence is strictly monotonically increasing across
successful transforms), and never wraps: a transform that would take the
64-bit sequence number past `2^64 - 1` fails instead. -/
theorem aead_seq_monotonic {C : Type} (B : AeadBinding C) :
    (∀ aead hash is_enc secret label ctx,
      ptls_aead_new B aead hash is_enc secret label = some ctx → ctx.seq = 0) ∧
    (∀ ctx input ct out ctx',
      ptls_aead_transform B ctx input ct = some (out, ctx') →
      ctx'.seq = ctx.seq + 1 ∧ ctx.seq < ctx'.seq) ∧
    (∀ ctx input ct, ctx.seq = U64 - 1 →
      ptls_aead_transform B ctx input ct = none) := by
  have hpos : 0 < U64 := by unfold U64; positivity
  refine ⟨?_, ?_, ?_⟩
  · intro aead hash is_enc secret label ctx h
    unfold ptls_aead_new at h
    split at h
    · exact absurd h (by simp)
    · simp only [Option.some.injEq] at h
      subst h
      rfl
  · intro ctx input ct out ctx' h
    unfold ptls_aead_transform at h
    split at h
    · exact absurd h (by simp)
    · split at h
      · exact absurd h (by simp)
      · simp only [Option.some.injEq, Prod.mk.injEq] at h
        obtain ⟨-, h2⟩ := h
        subst h2
        exact ⟨rfl, Nat.lt_succ_self _⟩
  · intro ctx input ct hseq
    unfold ptls_aead_transform
    rw [if_pos (by omega)]

/-- A trivial crypto binding over `Unit` state, used in concrete
witnesses. -/
def unitBinding : AeadBinding Unit :=
  { setup_crypto := fun _ _ => some ()
    do_transform := fun _ input _ ct => some (input ++ [ct % 256], ())
    dispose_crypto := fun c => c }

/-- Witness for `aead_seq_monotonic`: a successful transform at sequence
number 5 steps to 6, and a transform at `2^64 - 1` fails. -/
theorem aead_seq_monotonic_witness :
    ((⟨(), ⟨16, 12⟩, 6, List.replicate 12 0⟩ : ptls_aead_context_t Unit).seq =
        (⟨(), ⟨16, 12⟩, 5, List.replicate 12 0⟩ : ptls_aead_context_t Unit).seq + 1 ∧
      (⟨(), ⟨16, 12⟩, 5, List.replicate 12 0⟩ : ptls_aead_context_t Unit).seq <
        (⟨(), ⟨16, 12⟩, 6, List.replicate 12 0⟩ : ptls_aead_context_t Unit).seq) ∧
    ptls_aead_transform unitBinding ⟨(), ⟨16, 12⟩, U64 - 1, List.replicate 12 0⟩ [1] 22 =
      none :=
  ⟨(aead_seq_monotonic unitBinding).2.1 ⟨(), ⟨16, 12⟩, 5, List.replicate 12 0⟩ [1, 2] 22
      [1, 2, 22] ⟨(), ⟨16, 12⟩, 6, List.replicate 12 0⟩ rfl,
    (aead_seq_monotonic unitBinding).2.2 ⟨(), ⟨16, 12⟩, U64 - 1, List.replicate 12 0⟩
      [1] 22 rfl⟩

/-- C10: for every crypto binding whatsoever, the fields `algo`, `seq` and
`static_iv` of an AEAD context are never altered by the binding's entry
points: a transform changes `seq` only, and only by the core's increment; a
free leaves all three untouched; a new context's three fields are set by
the core from its own arguments. -/
theorem aead_binding_frame {C : Type} (B : AeadBinding C) :
    (∀ ctx input ct out ctx',
      ptls_aead_transform B ctx input ct = some (out, ctx') →
      ctx'.algo = ctx.algo ∧ ctx'.static_iv = ctx.static_iv ∧
        ctx'.seq = ctx.seq + 1) ∧
    (∀ ctx, (ptls_aead_free B ctx).algo = ctx.algo ∧
      (ptls_aead_free B ctx).seq = ctx.seq ∧
      (ptls_aead_free B ctx).static_iv = ctx.static_iv) ∧
    (∀ aead hash is_enc secret label ctx,
      ptls_aead_new B aead hash is_enc secret label = some ctx →
      ctx.algo = aead ∧ ctx.seq = 0 ∧
        ctx.static_iv =
          hkdf_expand_label hash secret (label ++ ivLabelBytes) [] aead.iv_size) := by
  refine ⟨?_, fun ctx => ⟨rfl, rfl, rfl⟩, ?_⟩
  · intro ctx input ct out ctx' h
    unfold ptls_aead_transform at h
    split at h
    · exact absurd h (by simp)
    · split at h
      · exact absurd h (by simp)
      · simp only [Option.some.injEq, Prod.mk.injEq] at h
        obtain ⟨-, h2⟩ := h
        subst h2
        exact ⟨rfl, rfl, rfl⟩
  · intro aead hash is_enc secret label ctx h
    unfold ptls_aead_new at h
    split at h
    · exact absurd h (by simp)
    · simp only [Option.some.injEq] at h
      subst h
      exact ⟨rfl, rfl, rfl⟩

/-- Witness for `aead_binding_frame`: a concrete transform under the
trivial binding preserves `algo` and `static_iv` and bumps `seq`. -/
theorem aead_binding_frame_witness :
    (⟨(), ⟨16, 12⟩, 4, [7, 7, 7, 7, 7, 7, 7, 7]⟩ : ptls_aead_context_t Unit).algo =
        (⟨(), ⟨16, 12⟩, 3, [7, 7, 7, 7, 7, 7, 7, 7]⟩ : ptls_aead_context_t Unit).algo ∧
      (⟨(), ⟨16, 12⟩, 4, [7, 7, 7, 7, 7, 7, 7, 7]⟩ : ptls_aead_context_t Unit).static_iv =
        (⟨(), ⟨16, 12⟩, 3, [7, 7, 7, 7, 7, 7, 7, 7]⟩ : ptls_aead_context_t Unit).static_iv ∧
      (⟨(), ⟨16, 12⟩, 4, [7, 7, 7, 7, 7, 7, 7, 7]⟩ : ptls_aead_context_t Unit).seq =
        (⟨(), ⟨16, 12⟩, 3, [7, 7, 7, 7, 7, 7, 7, 7]⟩ : ptls_aead_context_t Unit).seq + 1 :=
  (aead_binding_frame unitBinding).1 ⟨(), ⟨16, 12⟩, 3, [7, 7, 7, 7, 7, 7, 7, 7]⟩ [5] 23
    [5, 23] ⟨(), ⟨16, 12⟩, 4, [7, 7, 7, 7, 7, 7, 7, 7]⟩ rfl

/-! ### Nonce injectivity and the AEAD round trip -/

/-- Big-endian decoder, the left inverse of `beBytes8`. -/
def decodeBE (l : List Nat) : Nat := l.foldl (fun acc b => acc * 256 + b) 0

theorem decodeBE_beBytes8 (n : Nat) (hn : n < U64) : decodeBE (beBytes8 n) = n := by
  unfold U64 at hn
  unfold decodeBE beBytes8
  simp only [List.foldl]
  have e56 : (2 : Nat) ^ 56 = 72057594037927936 := by norm_num
  have e48 : (2 : Nat) ^ 48 = 281474976710656 := by norm_num
  have e40 : (2 : Nat) ^ 40 = 1099511627776 := by norm_num
  have e32 : (2 : Nat) ^ 32 = 4294967296 := by norm_num
  have e24 : (2 : Nat) ^ 24 = 16777216 := by norm_num
  have e16 : (2 : Nat) ^ 16 = 65536 := by norm_num
  have e8 : (2 : Nat) ^ 8 = 256 := by norm_num
  have e64 : (2 : Nat) ^ 64 = 18446744073709551616 := by norm_num
  rw [e56, e48, e40, e32, e24, e16, e8] at *
  rw [e64] at hn
  omega

theorem zipWith_xor_left_cancel :
    ∀ (d b b' : List Nat), b.length = b'.length → b.length ≤ d.length →
      List.zipWith (fun a x => a ^^^ x) d b = List.zipWith (fun a x => a ^^^ x) d b' →
      b = b' := by
  intro d
  induction d with
  | nil =>
    intro b b' hl hd _
    cases b with
    | nil =>
      cases b' with
      | nil => rfl
      | cons _ _ => simp at hl
    | cons _ _ => simp at hd
  | cons a ds ih =>
    intro b b' hl hd h
    cases b with
    | nil =>
      cases b' with
      | nil => rfl
      | cons _ _ => simp at hl
    | cons x xs =>
      cases b' with
      | nil => simp at hl
      | cons y ys =>
        simp only [List.zipWith_cons_cons, List.cons.injEq] at h
        obtain ⟨h1, h2⟩ := h
        have hx : x = y := Nat.xor_right_injective h1
        subst hx
        rw [ih xs ys (by simpa using hl) (by simp at hd ⊢; omega) h2]

theorem aead_nonce_length (iv : List Nat) (hiv : 8 ≤ iv.length) (s : Nat) :
    (aead_nonce iv s).length = iv.length := by
  unfold aead_nonce
  simp [beBytes8]
  omega

theorem aead_nonce_eq_append (iv : List Nat) (hiv : 8 ≤ iv.length) (s : Nat) :
    aead_nonce iv s =
      List.zipWith (fun a b => a ^^^ b) (iv.take (iv.length - 8))
          (List.replicate (iv.length - 8) 0) ++
        List.zipWith (fun a b => a ^^^ b) (iv.drop (iv.length - 8)) (beBytes8 s) := by
  unfold aead_nonce
  set k := iv.length - 8 with hk
  conv_lhs => rw [← List.take_append_drop k iv]
  rw [List.zipWith_append]
  simp only [List.length_take, List.length_replicate]
  omega

theorem aead_nonce_inj (iv : List Nat) (hiv : 8 ≤ iv.length) (n m : Nat)
    (hn : n < U64) (hm : m < U64) (h : aead_nonce iv n = aead_nonce iv m) : n = m := by
  rw [aead_nonce_eq_append iv hiv n, aead_nonce_eq_append iv hiv m] at h
  have h2 := List.append_cancel_left h
  have h3 : beBytes8 n = beBytes8 m := by
    refine zipWith_xor_left_cancel (iv.drop (iv.length - 8)) (beBytes8 n) (beBytes8 m)
      rfl ?_ h2
    simp only [List.length_drop]
    show 8 ≤ iv.length - (iv.length - 8)
    omega
  have hd := congrArg decodeBE h3
  rw [decodeBE_beBytes8 n hn, decodeBE_beBytes8 m hm] at hd
  exact hd

/-- An abstract AEAD primitive as supplied by the crypto provider: an
encryption function and a fallible decryption function over (key, nonce)
pairs.  The correctness and integrity laws expected of a real AEAD are
taken as hypotheses of the round-trip theorem. -/
structure AeadPrimitive where
  enc : List Nat → List Nat → List Nat → List Nat
  dec : List Nat → List Nat → List Nat → Option (List Nat)

/-- Modelled from the spec: the encryption-side binding of a primitive.
The inner content type is appended to the plaintext before AEAD
(spec §4.5) and the record is encrypted under the per-record nonce; the
opaque state holds the key installed by `setup_crypto`. -/
def encBinding (P : AeadPrimitive) : AeadBinding (List Nat) :=
  { setup_crypto := fun _ key => some key
    do_transform := fun key input nonce ct =>
      some (P.enc key nonce (input ++ [ct % 256]), key)
    dispose_crypto := fun _ => [] }

/-- Modelled from the spec: the decryption-side binding of a primitive.
Decryption under the per-record nonce recovers the inner plaintext and the
trailing content-type byte is split off; a primitive failure fails the
transform. -/
def decBinding (P : AeadPrimitive) : AeadBinding (List Nat) :=
  { setup_crypto := fun _ key => some key
    do_transform := fun key input nonce _ =>
      match P.dec key nonce input with
      | none => none
      | some inner => some (inner.dropLast, key)
    dispose_crypto := fun _ => [] }

/-- C2: for an AEAD primitive satisfying the usual correctness law (`Hc`)
and nonce-integrity law (`Hi`), encrypting a plaintext `p` with
`ptls_aead_transform` under a context holding `(key, iv, seq = n)` and
decrypting the result under the matching decryption context holding
`seq = n` yields exactly `p`, while decrypting it under a context holding
`seq = n + 1` fails. -/
theorem aead_round_trip (P : AeadPrimitive)
    (Hc : ∀ k nonce p, P.dec k nonce (P.enc k nonce p) = some p)
    (Hi : ∀ k n1 n2 p, n1.length = n2.length → n1 ≠ n2 →
      P.dec k n2 (P.enc k n1 p) = none)
    (al : ptls_aead_algorithm_t) (key iv p : List Nat) (ct n : Nat)
    (hiv : 8 ≤ iv.length) (hn : n + 1 < U64) :
    ptls_aead_transform (encBinding P) ⟨key, al, n, iv⟩ p ct =
      some (P.enc key (aead_nonce iv n) (p ++ [ct % 256]), ⟨key, al, n + 1, iv⟩) ∧
    ptls_aead_transform (decBinding P) ⟨key, al, n, iv⟩
        (P.enc key (aead_nonce iv n) (p ++ [ct % 256])) 0 =
      some (p, ⟨key, al, n + 1, iv⟩) ∧
    ptls_aead_transform (decBinding P) ⟨key, al, n + 1, iv⟩
        (P.enc key (aead_nonce iv n) (p ++ [ct % 256])) 0 = none := by
  have hguard : ¬ U64 ≤ n + 1 := by omega
  refine ⟨?_, ?_, ?_⟩
  · simp [ptls_aead_transform, encBinding, hguard]
  · simp [ptls_aead_transform, decBinding, hguard,
      Hc key (aead_nonce iv n) (p ++ [ct % 256])]
  · by_cases hU : U64 ≤ n + 1 + 1
    · simp [ptls_aead_transform, hU]
    · have hne : aead_nonce iv (n + 1) ≠ aead_nonce iv n := by
        intro h
        have := aead_nonce_inj iv hiv (n + 1) n (by omega) (by omega) h
        omega
      have hlen : (aead_nonce iv n).length = (aead_nonce iv (n + 1)).length := by
        rw [aead_nonce_length iv hiv, aead_nonce_length iv hiv]
      have hdec := Hi key (aead_nonce iv n) (aead_nonce iv (n + 1)) (p ++ [ct % 256])
        hlen (fun hh => hne hh.symm)
      simp [ptls_aead_transform, decBinding, hU, hdec]

/-- A toy AEAD primitive used as a concrete witness input: the ciphertext
is the nonce followed by the plaintext, and decryption checks the nonce. -/
def prependPrim : AeadPrimitive :=
  { enc := fun _ nonce p => nonce ++ p
    dec := fun _ nonce c =>
      if c.take nonce.length = nonce then some (c.drop nonce.length) else none }

theorem prependPrim_correct :
    ∀ k nonce p, prependPrim.dec k nonce (prependPrim.enc k nonce p) = some p := by
  intro k nonce p
  simp [prependPrim, List.take_left, List.drop_left]

theorem prependPrim_integrity :
    ∀ k n1 n2 p, n1.length = n2.length → n1 ≠ n2 →
      prependPrim.dec k n2 (prependPrim.enc k n1 p) = none := by
  intro k n1 n2 p hl hne
  have ht : (n1 ++ p).take n2.length = n1 := by
    rw [← hl]
    exact List.take_left n1 p
  simp [prependPrim, ht, hne]

/-- A 12-byte static IV used in concrete witnesses. -/
def ivTwelve : List Nat := [0, 1, 2, 3, 4, 5, 6, 7, 8, 9, 10, 11]

/-- Witness for `aead_round_trip` at the toy primitive, sequence number 5,
plaintext `[1, 2, 3]` and content type 23. -/
theorem aead_round_trip_witness :
    ptls_aead_transform (decBinding prependPrim) ⟨[9], ⟨16, 12⟩, 5, ivTwelve⟩
        (prependPrim.enc [9] (aead_nonce ivTwelve 5) ([1, 2, 3] ++ [23 % 256])) 0 =
      some ([1, 2, 3], ⟨[9], ⟨16, 12⟩, 5 + 1, ivTwelve⟩) ∧
    ptls_aead_transform (decBinding prependPrim) ⟨[9], ⟨16, 12⟩, 5 + 1, ivTwelve⟩
        (prependPrim.enc [9] (aead_nonce ivTwelve 5) ([1, 2, 3] ++ [23 % 256])) 0 =
      none :=
  ⟨(aead_round_trip prependPrim prependPrim_correct prependPrim_integrity
      ⟨16, 12⟩ [9] ivTwelve [1, 2, 3] 23 5 (by decide)
      (by unfold U64; norm_num)).2.1,
    (aead_round_trip prependPrim prependPrim_correct prependPrim_integrity
      ⟨16, 12⟩ [9] ivTwelve [1, 2, 3] 23 5 (by decide)
      (by unfold U64; norm_num)).2.2⟩

/-! ### Record-layer fragmentation (`ptls_send`, header line 255) -/

/-- The maximum TLS 1.3 record plaintext size, `2^14 = 16384` bytes
(spec §4.5). -/
def PTLS_MAX_RECORD_PLAINTEXT : Nat := 16384

/-- Modelled from the spec: the plaintext partition performed by
`ptls_send` (declared at header line 255): "Application data is
partitioned into records of at most 2^14 plaintext bytes" (spec §4.5), and
"Empty input to `send` produces no records" (spec §8). -/
def ptls_send_fragments (input : List Nat) : List (List Nat) :=
  if h0 : input.length = 0 then []
  else if h1 : input.length ≤ PTLS_MAX_RECORD_PLAINTEXT then [input]
  else input.take PTLS_MAX_RECORD_PLAINTEXT ::
    ptls_send_fragments (input.drop PTLS_MAX_RECORD_PLAINTEXT)
termination_by input.length
decreasing_by simp only [List.length_drop]; unfold PTLS_MAX_RECORD_PLAINTEXT at h1 ⊢; omega

theorem ptls_send_fragments_flatten (input : List Nat) :
    (ptls_send_fragments input).flatten = input := by
  induction input using ptls_send_fragments.induct with
  | case1 input h0 => simp [ptls_send_fragments, h0, List.eq_nil_of_length_eq_zero h0]
  | case2 input h0 h1 => simp [ptls_send_fragments, h0, h1]
  | case3 input h0 h1 ih =>
    rw [ptls_send_fragments]
    simp [h0, h1, ih]

theorem ptls_send_fragments_bound (input : List Nat) :
    ∀ f ∈ ptls_send_fragments input, f.length ≤ PTLS_MAX_RECORD_PLAINTEXT ∧ f ≠ [] := by
  induction input using ptls_send_fragments.induct with
  | case1 input h0 => simp [ptls_send_fragments, h0]
  | case2 input h0 h1 =>
    intro f hf
    rw [ptls_send_fragments] at hf
    simp [h0, h1] at hf
    subst hf
    exact ⟨h1, fun h => h0 (by simp [h])⟩
  | case3 input h0 h1 ih =>
    intro f hf
    rw [ptls_send_fragments] at hf
    simp only [h0, h1, dif_neg, not_false_iff, List.mem_cons] at hf
    rcases hf with hf | hf
    · subst hf
      refine ⟨by simp, ?_⟩
      rw [← List.length_pos]
      simp only [List.length_take]
      unfold PTLS_MAX_RECORD_PLAINTEXT at h1 ⊢
      omega
    · exact ih f hf

theorem ptls_send_fragments_one (input : List Nat)
    (h : input.length = PTLS_MAX_RECORD_PLAINTEXT) :
    ptls_send_fragments input = [input] := by
  have h0 : ¬ input.length = 0 := by
    unfold PTLS_MAX_RECORD_PLAINTEXT at h
    omega
  have h1 : input.length ≤ PTLS_MAX_RECORD_PLAINTEXT := le_of_eq h
  rw [ptls_send_fragments, dif_neg h0, dif_pos h1]

theorem ptls_send_fragments_two (input : List Nat)
    (h : input.length = PTLS_MAX_RECORD_PLAINTEXT + 1) :
    (ptls_send_fragments input).length = 2 := by
  unfold PTLS_MAX_RECORD_PLAINTEXT at h
  have h0 : ¬ input.length = 0 := by omega
  have h1 : ¬ input.length ≤ PTLS_MAX_RECORD_PLAINTEXT := by
    unfold PTLS_MAX_RECORD_PLAINTEXT
    omega
  have hd0 : ¬ (input.drop PTLS_MAX_RECORD_PLAINTEXT).length = 0 := by
    simp only [List.length_drop]
    unfold PTLS_MAX_RECORD_PLAINTEXT
    omega
  have hd1 : (input.drop PTLS_MAX_RECORD_PLAINTEXT).length ≤ PTLS_MAX_RECORD_PLAINTEXT := by
    simp only [List.length_drop]
    unfold PTLS_MAX_RECORD_PLAINTEXT
    omega
  rw [ptls_send_fragments, dif_neg h0, dif_neg h1,
    ptls_send_fragments, dif_neg hd0, dif_pos hd1]
  rfl

/-- C4: `ptls_send` partitions its input into records of at most `2^14`
plaintext bytes: the fragments reassemble exactly to the input, every
fragment is nonempty and at most `2^14` bytes long, an input of exactly
`2^14` bytes produces a single record, an input of `2^14 + 1` bytes
produces exactly two records, and the empty input produces no records. -/
theorem send_fragmentation (input : List Nat) :
    PTLS_MAX_RECORD_PLAINTEXT = 2 ^ 14 ∧
    (ptls_send_fragments input).flatten = input ∧
    (∀ f ∈ ptls_send_fragments input,
      f.length ≤ PTLS_MAX_RECORD_PLAINTEXT ∧ f ≠ []) ∧
    (input = [] → ptls_send_fragments input = []) ∧
    (input.length = PTLS_MAX_RECORD_PLAINTEXT →
      (ptls_send_fragments input).length = 1) ∧
    (input.length = PTLS_MAX_RECORD_PLAINTEXT + 1 →
      (ptls_send_fragments input).length = 2) := by
  refine ⟨by norm_num [PTLS_MAX_RECORD_PLAINTEXT], ptls_send_fragments_flatten input,
    ptls_send_fragments_bound input, ?_, ?_, ptls_send_fragments_two input⟩
  · intro h
    subst h
    simp [ptls_send_fragments]
  · intro h
    rw [ptls_send_fragments_one input h]
    rfl

/-- Witness for `send_fragmentation`: an input of `2^14 + 1` zero bytes
yields exactly two records. -/
theorem send_fragmentation_witness :
    (ptls_send_fragments (List.replicate (PTLS_MAX_RECORD_PLAINTEXT + 1) 0)).length = 2 :=
  (send_fragmentation _).2.2.2.2.2 (by simp)

/-! ### The verify_sign release protocol
(`ptls_certificate_context_t`, header lines 106-123) -/

/-- One recorded invocation of the `verify_sign` continuation: the signed
data and the signature; the cleanup invocation carries two empty
buffers. -/
structure VsCall where
  data : List Nat
  sign : List Nat
deriving DecidableEq

/-- State of the client certificate phase once the `verify` callback has
returned successfully: `pending` records whether the `verify_sign`
continuation is still owed its invocation, `calls` the invocations made so
far. -/
structure CvState where
  pending : Bool
  calls : List VsCall
deriving DecidableEq

/-- Modelled from the spec (header lines 114-120): on receipt of
CertificateVerify the core invokes the pending `verify_sign` continuation
with the real data and signature, consuming it. -/
def onCertificateVerify (s : CvState) (data sign : List Nat) : CvState :=
  if s.pending then { pending := false, calls := s.calls ++ [⟨data, sign⟩] } else s

/-- Modelled from the spec (header lines 114-120): "If an error occurs
between a successful return from this callback to the invocation of the
verify_sign callback, verify_sign is called with both data and sign set to
an empty buffer"; the same release happens on session disposal (spec §5
Cancellation). -/
def onAbort (s : CvState) : CvState :=
  if s.pending then { pending := false, calls := s.calls ++ [⟨[], []⟩] } else s

/-- The events that can reach the certificate phase after `verify` has
returned: arrival of CertificateVerify, or an intervening error. -/
inductive CvEvent where
  | certVerify (data sign : List Nat)
  | abort
deriving DecidableEq

def cvStep (s : CvState) : CvEvent → CvState
  | .certVerify d sg => onCertificateVerify s d sg
  | .abort => onAbort s

def cvRun (s : CvState) : List CvEvent → CvState
  | [] => s
  | e :: es => cvRun (cvStep s e) es

/-- The state right after `verify` returns the continuation. -/
def cvInit : CvState := ⟨true, []⟩

/-- A complete execution of the certificate phase: the observed events,
then session teardown, which releases a still-pending continuation with
empty arguments. -/
def cvExec (events : List CvEvent) : CvState := onAbort (cvRun cvInit events)

theorem cvStep_frozen (s : CvState) (e : CvEvent) (h : s.pending = false) :
    cvStep s e = s := by
  cases e <;> simp [cvStep, onCertificateVerify, onAbort, h]

theorem cvRun_frozen (s : CvState) (es : List CvEvent) (h : s.pending = false) :
    cvRun s es = s := by
  induction es with
  | nil => rfl
  | cons e es ih => rw [cvRun, cvStep_frozen s e h]; exact ih

theorem cvExec_nil : cvExec [] = ⟨false, [⟨[], []⟩]⟩ := rfl

theorem cvExec_certVerify (d sg : List Nat) (es : List CvEvent) :
    cvExec (CvEvent.certVerify d sg :: es) = ⟨false, [⟨d, sg⟩]⟩ := by
  unfold cvExec
  rw [cvRun, show cvStep cvInit (CvEvent.certVerify d sg) = ⟨false, [⟨d, sg⟩]⟩ from rfl,
    cvRun_frozen _ _ rfl]
  rfl

theorem cvExec_abort (es : List CvEvent) :
    cvExec (CvEvent.abort :: es) = ⟨false, [⟨[], []⟩]⟩ := by
  unfold cvExec
  rw [cvRun, show cvStep cvInit CvEvent.abort = ⟨false, [⟨[], []⟩]⟩ from rfl,
    cvRun_frozen _ _ rfl]
  rfl

/-- C7: once `verify` has returned a `verify_sign` continuation, every
complete execution of the certificate phase invokes the continuation
exactly once: with the real data and signature when CertificateVerify is
processed first, and with both arguments empty when an error or teardown
intervenes first. -/
theorem verify_sign_called_once (events : List CvEvent) :
    (cvExec events).calls.length = 1 ∧
    (cvExec events).pending = false ∧
    (events = [] → (cvExec events).calls = [⟨[], []⟩]) ∧
    (∀ d sg es, events = CvEvent.certVerify d sg :: es →
      (cvExec events).calls = [⟨d, sg⟩]) ∧
    (∀ es, events = CvEvent.abort :: es →
      (cvExec events).calls = [⟨[], []⟩]) := by
  have hshape : (cvExec events).calls.length = 1 ∧ (cvExec events).pending = false := by
    cases events with
    | nil => exact ⟨rfl, rfl⟩
    | cons e es =>
      cases e with
      | certVerify d sg => rw [cvExec_certVerify]; exact ⟨rfl, rfl⟩
      | abort => rw [cvExec_abort]; exact ⟨rfl, rfl⟩
  refine ⟨hshape.1, hshape.2, ?_, ?_, ?_⟩
  · intro h
    subst h
    rfl
  · intro d sg es h
    subst h
    rw [cvExec_certVerify]
  · intro es h
    subst h
    rw [cvExec_abort]

/-- Witness for `verify_sign_called_once`: an execution where
CertificateVerify arrives and one where an error intervenes first. -/
theorem verify_sign_called_once_witness :
    (cvExec [CvEvent.certVerify [1] [2]]).calls = [⟨[1], [2]⟩] ∧
    (cvExec [CvEvent.abort, CvEvent.certVerify [1] [2]]).calls = [⟨[], []⟩] :=
  ⟨(verify_sign_called_once [CvEvent.certVerify [1] [2]]).2.2.2.1 [1] [2] [] rfl,
    (verify_sign_called_once [CvEvent.abort, CvEvent.certVerify [1] [2]]).2.2.2.2
      [CvEvent.certVerify [1] [2]] rfl⟩

/-! ### The handshake engine (`ptls_handshake`, header line 247) -/

/-- Modelled from the spec (§4.6 States, client side): the per-session
handshake states of the client engine between ServerHello and completion,
plus the terminal `connected` and `failed` states. -/
inductive HsState where
  | expect_server_hello
  | expect_encrypted_extensions
  | expect_certificate
  | expect_certificate_verify
  | expect_finished
  | connected
  | failed
deriving DecidableEq

/-- Modelled from the spec: the handshake-message type (RFC 8446) each
client state is waiting for: ServerHello 2, EncryptedExtensions 8,
Certificate 11, CertificateVerify 15, Finished 20; the terminal states
expect none. -/
def expectedType : HsState → Option Nat
  | .expect_server_hello => some 2
  | .expect_encrypted_extensions => some 8
  | .expect_certificate => some 11
  | .expect_certificate_verify => some 15
  | .expect_finished => some 20
  | .connected => none
  | .failed => none

/-- Modelled from the spec (§4.6): the successor state once the expected
message has been processed. -/
def hsNext : HsState → HsState
  | .expect_server_hello => .expect_encrypted_extensions
  | .expect_encrypted_extensions => .expect_certificate
  | .expect_certificate => .expect_certificate_verify
  | .expect_certificate_verify => .expect_finished
  | .expect_finished => .connected
  | s => s

/-- Modelled from the spec (§7): processing one handshake message either
advances the state machine or fails with the `unexpected_message`
self-alert when the message does not match the current state. -/
def hsStep (st : HsState) (t : Nat) : Except Nat HsState :=
  match expectedType st with
  | none => Except.error PTLS_ALERT_UNEXPECTED_MESSAGE
  | some t0 =>
    if t = t0 then Except.ok (hsNext st) else Except.error PTLS_ALERT_UNEXPECTED_MESSAGE

/-- The 3-byte big-endian length field of a handshake-message header. -/
def decodeLen (l2 l1 l0 : Nat) : Nat := l2 * 65536 + l1 * 256 + l0

/-- Modelled from the spec: the message-consumption loop of
`ptls_handshake` (declared at header line 247; spec §4.6 Re-entry and §6
Wire format).  Handshake messages are framed as a 1-byte type, a 3-byte
big-endian length and the body; the loop consumes as many complete
messages as the input provides and returns the new state, the number of
bytes consumed, and the return code: 0 once the handshake completes,
`PTLS_ERROR_HANDSHAKE_IN_PROGRESS` when more I/O is needed, or a TLS
alert code on error. -/
def ptls_handshake (st : HsState) (input : List Nat) : HsState × Nat × Nat :=
  match input with
  | t :: l2 :: l1 :: l0 :: rest =>
    if hlen : rest.length < decodeLen l2 l1 l0 then
      (st, 0,
        if st = HsState.connected then 0 else PTLS_ERROR_HANDSHAKE_IN_PROGRESS)
    else
      match hsStep st t with
      | .error e => (HsState.failed, 4 + decodeLen l2 l1 l0, e)
      | .ok st' =>
        if st' = HsState.connected then (st', 4 + decodeLen l2 l1 l0, 0)
        else
          ((ptls_handshake st' (rest.drop (decodeLen l2 l1 l0))).1,
            4 + decodeLen l2 l1 l0 +
              (ptls_handshake st' (rest.drop (decodeLen l2 l1 l0))).2.1,
            (ptls_handshake st' (rest.drop (decodeLen l2 l1 l0))).2.2)
  | _ =>
    (st, 0,
      if st = HsState.connected then 0 else PTLS_ERROR_HANDSHAKE_IN_PROGRESS)
termination_by input.length
decreasing_by simp only [List.length_drop, List.length_cons]; omega

theorem hsStep_error_eq (st : HsState) (t e : Nat)
    (h : hsStep st t = Except.error e) : e = PTLS_ALERT_UNEXPECTED_MESSAGE := by
  cases st <;> unfold hsStep expectedType at h <;>
    (try split at h) <;> (try split at h) <;> (try simp at h) <;> omega

theorem hs_classification (st : HsState) (input : List Nat) :
    (ptls_handshake st input).2.1 ≤ input.length ∧
    ((ptls_handshake st input).2.2 = 0 ∨
      (ptls_handshake st input).2.2 = PTLS_ERROR_HANDSHAKE_IN_PROGRESS ∨
      (ptls_handshake st input).2.2 = PTLS_ALERT_UNEXPECTED_MESSAGE) := by
  induction st, input using ptls_handshake.induct with
  | case1 st t l2 l1 l0 rest hlen =>
    rw [ptls_handshake, dif_pos hlen]
    by_cases hc : st = HsState.connected <;> simp [hc]
  | case2 st t l2 l1 l0 rest hlen e herr =>
    have he := hsStep_error_eq st t e herr
    rw [ptls_handshake, dif_neg hlen]
    simp only [herr]
    refine ⟨?_, Or.inr (Or.inr he)⟩
    simp
    omega
  | case3 st t l2 l1 l0 rest hlen hok =>
    rw [ptls_handshake, dif_neg hlen]
    simp only [hok]
    refine ⟨?_, Or.inl rfl⟩
    simp
    omega
  | case4 st t l2 l1 l0 rest hlen st2 hok hconn ih =>
    obtain ⟨ih1, ih2⟩ := ih
    rw [ptls_handshake, dif_neg hlen]
    simp only [hok]
    simp only [hconn, if_false]
    refine ⟨?_, ih2⟩
    simp only [List.length_drop] at ih1
    simp
    omega
  | case5 st input hshape =>
    rcases input with _ | ⟨a, _ | ⟨b, _ | ⟨c, _ | ⟨d, tl⟩⟩⟩⟩ <;>
      first
        | (exact absurd rfl (hshape _ _ _ _ _))
        | (by_cases hc : st = HsState.connected <;> simp [ptls_handshake, hc])

/-- Modelled from the spec (§6 Wire format): a serialized handshake
message, a 1-byte type followed by the 3-byte big-endian body length and
the body. -/
def mkHsMessage (t : Nat) (body : List Nat) : List Nat :=
  t :: body.length / 65536 % 256 :: body.length / 256 % 256 :: body.length % 256 :: body

theorem decode_mk (n : Nat) (h : n < 16777216) :
    decodeLen (n / 65536 % 256) (n / 256 % 256) (n % 256) = n := by
  unfold decodeLen
  omega

theorem mkHsMessage_length (t : Nat) (body : List Nat) :
    (mkHsMessage t body).length = 4 + body.length := by
  simp [mkHsMessage]
  omega

theorem hs_short (st : HsState) (l : List Nat) (h : l.length < 4)
    (hc : st ≠ HsState.connected) :
    ptls_handshake st l = (st, 0, PTLS_ERROR_HANDSHAKE_IN_PROGRESS) := by
  rcases l with _ | ⟨a, _ | ⟨b, _ | ⟨c, _ | ⟨d, tl⟩⟩⟩⟩
  · simp [ptls_handshake, hc]
  · simp [ptls_handshake, hc]
  · simp [ptls_handshake, hc]
  · simp [ptls_handshake, hc]
  · simp at h
    omega

theorem hs_consume_one (st st' : HsState) (t : Nat) (body tail : List Nat)
    (h24 : body.length < 16777216) (hstep : hsStep st t = Except.ok st')
    (hc : st' ≠ HsState.connected) :
    ptls_handshake st (mkHsMessage t body ++ tail) =
      ((ptls_handshake st' tail).1,
        4 + body.length + (ptls_handshake st' tail).2.1,
        (ptls_handshake st' tail).2.2) := by
  show ptls_handshake st
      (t :: body.length / 65536 % 256 :: body.length / 256 % 256 ::
        body.length % 256 :: (body ++ tail)) = _
  rw [ptls_handshake]
  simp only [decode_mk body.length h24]
  rw [dif_neg (by simp)]
  simp only [hstep]
  rw [if_neg hc, List.drop_left]

theorem hs_one (st st' : HsState) (t : Nat) (body : List Nat)
    (h24 : body.length < 16777216) (hstep : hsStep st t = Except.ok st')
    (hc : st' ≠ HsState.connected) :
    ptls_handshake st (mkHsMessage t body) =
      (st', 4 + body.length, PTLS_ERROR_HANDSHAKE_IN_PROGRESS) := by
  rw [← List.append_nil (mkHsMessage t body),
    hs_consume_one st st' t body [] h24 hstep hc,
    hs_short st' [] (by simp) hc]
  rfl

theorem hs_complete (st : HsState) (t : Nat) (body : List Nat)
    (h24 : body.length < 16777216)
    (hstep : hsStep st t = Except.ok HsState.connected) :
    ptls_handshake st (mkHsMessage t body) = (HsState.connected, 4 + body.length, 0) := by
  show ptls_handshake st
      (t :: body.length / 65536 % 256 :: body.length / 256 % 256 ::
        body.length % 256 :: body) = _
  rw [ptls_handshake]
  simp only [decode_mk body.length h24]
  rw [dif_neg (by omega)]
  simp only [hstep]
  simp

theorem hs_incomplete (st : HsState) (t : Nat) (body : List Nat) (j : Nat)
    (h24 : body.length < 16777216) (hj : j < 4 + body.length)
    (hc : st ≠ HsState.connected) :
    ptls_handshake st ((mkHsMessage t body).take j) =
      (st, 0, PTLS_ERROR_HANDSHAKE_IN_PROGRESS) := by
  rcases Nat.lt_or_ge j 4 with h4 | h4
  · apply hs_short st _ _ hc
    simp only [List.length_take, mkHsMessage_length]
    omega
  · obtain ⟨i, rfl⟩ : ∃ i, j = i + 4 := ⟨j - 4, by omega⟩
    have hi : i < body.length := by omega
    have htake : (mkHsMessage t body).take (i + 4) =
        t :: body.length / 65536 % 256 :: body.length / 256 % 256 ::
          body.length % 256 :: body.take i := by
      simp [mkHsMessage, List.take_succ_cons]
    rw [htake, ptls_handshake]
    simp only [decode_mk body.length h24]
    rw [dif_pos (by simp only [List.length_take]; omega)]
    simp [hc]

/-- C3: `ptls_handshake` is level-triggered and partial-input tolerant:
for every state and input it consumes at most the input (as many complete
messages as the input provides) and returns exactly one of 0 (complete),
`PTLS_ERROR_HANDSHAKE_IN_PROGRESS`, or a TLS alert; a strict prefix of a
ServerHello is consumed 0 bytes with `HANDSHAKE_IN_PROGRESS`, the complete
ServerHello is then consumed whole and advances the state, two complete
messages in one input are both consumed, and the final Finished message
returns 0. -/
theorem handshake_level_triggered (st : HsState) (input : List Nat)
    (sh ee : List Nat) (j : Nat)
    (h24 : sh.length < 2 ^ 24) (h24e : ee.length < 2 ^ 24)
    (hj : j < (mkHsMessage 2 sh).length) :
    ((ptls_handshake st input).2.1 ≤ input.length ∧
      ((ptls_handshake st input).2.2 = 0 ∨
        (ptls_handshake st input).2.2 = PTLS_ERROR_HANDSHAKE_IN_PROGRESS ∨
        (ptls_handshake st input).2.2 = PTLS_ALERT_UNEXPECTED_MESSAGE)) ∧
    ptls_handshake HsState.expect_server_hello ((mkHsMessage 2 sh).take j) =
      (HsState.expect_server_hello, 0, PTLS_ERROR_HANDSHAKE_IN_PROGRESS) ∧
    ptls_handshake HsState.expect_server_hello (mkHsMessage 2 sh) =
      (HsState.expect_encrypted_extensions, 4 + sh.length,
        PTLS_ERROR_HANDSHAKE_IN_PROGRESS) ∧
    ptls_handshake HsState.expect_server_hello (mkHsMessage 2 sh ++ mkHsMessage 8 ee) =
      (HsState.expect_certificate, 4 + sh.length + (4 + ee.length),
        PTLS_ERROR_HANDSHAKE_IN_PROGRESS) ∧
    ptls_handshake HsState.expect_finished (mkHsMessage 20 sh) =
      (HsState.connected, 4 + sh.length, 0) := by
  have h24' : sh.length < 16777216 := by omega
  have h24e' : ee.length < 16777216 := by omega
  have hj' : j < 4 + sh.length := by rwa [mkHsMessage_length] at hj
  refine ⟨hs_classification st input, ?_, ?_, ?_, ?_⟩
  · exact hs_incomplete HsState.expect_server_hello 2 sh j h24' hj' (by simp)
  · exact hs_one HsState.expect_server_hello HsState.expect_encrypted_extensions 2 sh
      h24' rfl (by simp)
  · rw [hs_consume_one HsState.expect_server_hello HsState.expect_encrypted_extensions
      2 sh (mkHsMessage 8 ee) h24' rfl (by simp)]
    rw [hs_one HsState.expect_encrypted_extensions HsState.expect_certificate 8 ee
      h24e' rfl (by simp)]
  · exact hs_complete HsState.expect_finished 20 sh h24' rfl

/-- Witness for `handshake_level_triggered` at a two-byte ServerHello
body: a 3-byte prefix is consumed 0 bytes, the full message is consumed
whole. -/
theorem handshake_level_triggered_witness :
    ptls_handshake HsState.expect_server_hello ((mkHsMessage 2 [0, 0]).take 3) =
      (HsState.expect_server_hello, 0, PTLS_ERROR_HANDSHAKE_IN_PROGRESS) ∧
    ptls_handshake HsState.expect_server_hello (mkHsMessage 2 [0, 0]) =
      (HsState.expect_encrypted_extensions, 4 + ([0, 0] : List Nat).length,
        PTLS_ERROR_HANDSHAKE_IN_PROGRESS) :=
  ⟨(handshake_level_triggered HsState.expect_server_hello [] [0, 0] [1] 3
      (by norm_num) (by norm_num) (by simp [mkHsMessage_length])).2.1,
    (handshake_level_triggered HsState.expect_server_hello [] [0, 0] [1] 3
      (by norm_num) (by norm_num) (by simp [mkHsMessage_length])).2.2.1⟩

end Picotls
